import Mathlib

/-!
Verification of the SmartGrid Select & Copy userscript
(`scripts/smartgrid.user.js`, version 2.0.0) against its specification.

The development shallowly embeds the script's selection engine:
JS strings become `List Char`, JS `Set`s of `"r|c"` coordinate keys become
`Finset (ℤ × ℤ)`, jQuery collections become Lean lists, and the module-level
mutable singletons (`SelectionState`, `ErrorHandler`, `EventHandlers`)
become explicit state records threaded through step functions.

Definitions are translated from the v2.0.0 script, which is the current
revision; where a claim also cites the older v1.1.0 revision
(`src/unnamed/part_000`), the corresponding older definition carries a
`V110` suffix.
-/

/-- A JS string, modelled as its list of characters. -/
abbrev Str := List Char

/-- A `(row, col)` coordinate. The script encodes these as `"r|c"` keys
(`Utils.createKey`); key equality coincides with pair equality, so the
embedding uses the pair directly. Row/column indices come from jQuery
`.index()` calls and can be `-1`, hence `ℤ`. -/
abbrev Coord := ℤ × ℤ

/-- The characters matched by the JS regex class `\s` (whitespace):
space, tab, line feed, vertical tab, form feed, carriage return,
no-break space, BOM, line/paragraph separators. -/
def isJsSpace (c : Char) : Bool :=
  c == ' ' || c == '\t' || c == '\n' || c == '\x0b' || c == '\x0c' ||
  c == '\r' || c == ' ' || c == '﻿' || c == ' ' || c == ' '

/-- JS `String.prototype.trim`: strip whitespace from both ends. -/
def trimStr (cs : Str) : Str :=
  ((cs.dropWhile isJsSpace).reverse.dropWhile isJsSpace).reverse

/-- The currency symbols accepted by the classifier: `[$€£¥₹]`. -/
def isCurrencySym (c : Char) : Bool :=
  c == '$' || c == '€' || c == '£' || c == '¥' || c == '₹'

/-- The JS regex class `[\d,]`. -/
def isDigitOrComma (c : Char) : Bool :=
  c.isDigit || c == ','

/-- Matcher for the regex tail `\.?\d*$`: the remaining input is empty, or a
dot followed by digits only. The input always follows a maximal `[\d,]+`
(or `\d+`) run, so no backtracking into the preceding quantifier can
succeed and this deterministic reading equals the regex semantics. -/
def matchDotDigits (cs : Str) : Bool :=
  match cs with
  | [] => true
  | '.' :: t => t.all (·.isDigit)
  | _ => false

/-- `/^[$€£¥₹]\s*[\d,]+\.?\d*$/` (currency symbol first). Character classes
of adjacent quantifiers are disjoint, so greedy matching is exact. -/
def matchCurrencyA (cs : Str) : Bool :=
  match cs with
  | [] => false
  | c :: rest =>
    isCurrencySym c &&
      (let rest2 := rest.dropWhile isJsSpace
       let d := rest2.takeWhile isDigitOrComma
       let t := rest2.dropWhile isDigitOrComma
       !d.isEmpty && matchDotDigits t)

/-- `/^[\d,]+\.?\d*\s*[$€£¥₹]$/` (currency symbol last). -/
def matchCurrencyB (cs : Str) : Bool :=
  let d := cs.takeWhile isDigitOrComma
  let rest := cs.dropWhile isDigitOrComma
  !d.isEmpty &&
    (let rest2 : Str :=
      match rest with
      | '.' :: t => t.dropWhile (fun c => c.isDigit)
      | _ => rest
     match rest2.dropWhile isJsSpace with
     | [c] => isCurrencySym c
     | _ => false)

/-- `/^\d+\.?\d*\s*%$/`. -/
def matchPercentage (cs : Str) : Bool :=
  let d := cs.takeWhile (·.isDigit)
  let rest := cs.dropWhile (·.isDigit)
  !d.isEmpty &&
    (let rest2 : Str :=
      match rest with
      | '.' :: t => t.dropWhile (fun c => c.isDigit)
      | _ => rest
     rest2.dropWhile isJsSpace == ['%'])

/-- `/^-?[\d,]+\.?\d*$/`. -/
def matchNumberA (cs : Str) : Bool :=
  let cs2 := match cs with | '-' :: t => t | _ => cs
  let d := cs2.takeWhile isDigitOrComma
  let t := cs2.dropWhile isDigitOrComma
  !d.isEmpty && matchDotDigits t

/-- `/^-?\d*\.\d+$/`. -/
def matchNumberB (cs : Str) : Bool :=
  let cs2 := match cs with | '-' :: t => t | _ => cs
  let t := cs2.dropWhile (·.isDigit)
  match t with
  | '.' :: f => !f.isEmpty && f.all (·.isDigit)
  | _ => false

/-- The content categories produced across both revisions of
`Utils.detectContentType`. The v2.0.0 classifier only ever returns
`currency`, `percentage`, `number` or `text`; the v1.1.0 classifier adds
`date`, `url` and `email`. -/
inductive ContentType where
  | currency
  | percentage
  | number
  | date
  | url
  | email
  | text
  deriving DecidableEq, Repr

/-- `Utils.detectContentType` of v2.0.0 (smartgrid.user.js, lines 247-266):
trims, then tests currency, percentage, number patterns in order, falling
through to `"text"`. Note this revision has no date/url/email branches. -/
def detectContentType (text : Str) : ContentType :=
  let trimmed := trimStr text
  if matchCurrencyA trimmed || matchCurrencyB trimmed then .currency
  else if matchPercentage trimmed then .percentage
  else if matchNumberA trimmed || matchNumberB trimmed then .number
  else .text

/-- `/^\d{1,2}[-\/]\d{1,2}[-\/]\d{2,4}$/`. Digit runs are maximal (the
separators are not digits), so the counted quantifiers pin exact lengths. -/
def matchDate1 (cs : Str) : Bool :=
  let d1 := cs.takeWhile (·.isDigit)
  let r1 := cs.dropWhile (·.isDigit)
  (d1.length == 1 || d1.length == 2) &&
    match r1 with
    | s1 :: r2 =>
      (s1 == '-' || s1 == '/') &&
        (let d2 := r2.takeWhile (·.isDigit)
         let r3 := r2.dropWhile (·.isDigit)
         (d2.length == 1 || d2.length == 2) &&
           match r3 with
           | s2 :: r4 =>
             (s2 == '-' || s2 == '/') && r4.all (·.isDigit) &&
               (2 ≤ r4.length && r4.length ≤ 4)
           | [] => false)
    | [] => false

/-- `/^\d{4}-\d{2}-\d{2}$/`. -/
def matchDate2 (cs : Str) : Bool :=
  let d1 := cs.takeWhile (·.isDigit)
  let r1 := cs.dropWhile (·.isDigit)
  d1.length == 4 &&
    match r1 with
    | '-' :: r2 =>
      (let d2 := r2.takeWhile (·.isDigit)
       let r3 := r2.dropWhile (·.isDigit)
       d2.length == 2 &&
         match r3 with
         | '-' :: r4 => r4.all (·.isDigit) && r4.length == 2
         | _ => false)
    | _ => false

/-- Literal-prefix test used to embed the anchored url regexes. -/
def startsWithStr : Str → Str → Bool
  | [], _ => true
  | _ :: _, [] => false
  | a :: ps, b :: bs => a == b && startsWithStr ps bs

/-- `/^https?:\/\//` or `/^www\./`. -/
def matchUrl (cs : Str) : Bool :=
  startsWithStr ("http://".data) cs || startsWithStr ("https://".data) cs ||
    startsWithStr ("www.".data) cs

/-- `/^[^\s@]+@[^\s@]+\.[^\s@]+$/`: no whitespace anywhere, exactly one `@`
that is not the first character, and a `.` strictly inside the part after
the `@` (the class `[^\s@]` admits `.`, so only whitespace and extra `@`s
are excluded; this characterisation is equivalent to the regex). -/
def matchEmail (cs : Str) : Bool :=
  cs.all (fun c => !isJsSpace c) &&
    cs.count '@' == 1 &&
    (let left := cs.takeWhile (fun c => c != '@')
     let right := (cs.dropWhile (fun c => c != '@')).tail
     !left.isEmpty && (right.drop 1).dropLast.contains '.')

/-- `Utils.detectContentType` of the v1.1.0 revision
(`src/unnamed/part_000`, lines 169-203): currency, percentage, number
(a single pattern in this revision), date, url, email, then `"text"`. -/
def detectContentTypeV110 (text : Str) : ContentType :=
  let trimmed := trimStr text
  if matchCurrencyA trimmed || matchCurrencyB trimmed then .currency
  else if matchPercentage trimmed then .percentage
  else if matchNumberA trimmed then .number
  else if matchDate1 trimmed || matchDate2 trimmed then .date
  else if matchUrl trimmed then .url
  else if matchEmail trimmed then .email
  else .text

/-- Value of a digit string, most significant digit first. -/
def digitsVal (cs : Str) : ℕ :=
  cs.foldl (fun n c => 10 * n + (c.toNat - '0'.toNat)) 0

/-- Model of JS `parseFloat` on its decimal-literal fragment: skip leading
whitespace, optional sign, integer digits, optional fraction, optional
exponent; trailing garbage is ignored; `NaN` is `none`. Exact rational
value (the script only feeds it short decimals, for which the JS double is
the same rational). -/
def parseFloatM (cs : Str) : Option ℚ :=
  let cs1 := cs.dropWhile isJsSpace
  let sgn : ℚ := match cs1 with | '-' :: _ => -1 | _ => 1
  let cs2 : Str := match cs1 with | '-' :: t => t | '+' :: t => t | _ => cs1
  let intPart := cs2.takeWhile (·.isDigit)
  let rest := cs2.dropWhile (·.isDigit)
  let fracPart : Str :=
    match rest with
    | '.' :: t => t.takeWhile (·.isDigit)
    | _ => []
  let rest2 : Str :=
    match rest with
    | '.' :: t => t.dropWhile (·.isDigit)
    | _ => rest
  if intPart.isEmpty && fracPart.isEmpty then none
  else
    let mantissa : ℚ :=
      (digitsVal intPart : ℚ) + (digitsVal fracPart : ℚ) / (10 : ℚ) ^ fracPart.length
    let expVal : ℤ :=
      match rest2 with
      | e :: t =>
        if e == 'e' || e == 'E' then
          let esgn : ℤ := match t with | '-' :: _ => -1 | _ => 1
          let t2 : Str := match t with | '-' :: u => u | '+' :: u => u | _ => t
          let ed := t2.takeWhile (·.isDigit)
          if ed.isEmpty then 0 else esgn * (digitsVal ed : ℤ)
        else 0
      | [] => 0
    let scale : ℚ :=
      if 0 ≤ expVal then (10 : ℚ) ^ expVal.toNat else 1 / (10 : ℚ) ^ (-expVal).toNat
    some (sgn * mantissa * scale)

/-- `Utils.parseNumericValue`: strip `[$€£¥₹,%\s]` (the second
`replace(/,/g, "")` is redundant: commas are already removed), then
`parseFloat`. -/
def parseNumericValue (text : Str) : Option ℚ :=
  parseFloatM (text.filter
    (fun c => !(isCurrencySym c || c == ',' || c == '%' || isJsSpace c)))

/-- jQuery `.eq(i)` on a collection, returning the selected member of the
collection or `none` (an empty jQuery set) when the index misses. A
negative index counts from the end of the collection. -/
def jqEq {α : Type} (l : List α) (i : ℤ) : Option α :=
  if 0 ≤ i then l.get? i.toNat
  else if 0 ≤ (l.length : ℤ) + i then l.get? ((l.length : ℤ) + i).toNat
  else none

/-- `GridAdapters.default.getCell` of v2.0.0 (lines 277-282): guard
`r >= rows.length`, take row `r` of the resolved rows, guard
`c >= cells.length`, take cell `c`. The grid is modelled as the list of
rows, each row the list of its cells. An empty jQuery result is `none`. -/
def getCellDefault {α : Type} (rows : List (List α)) (r c : ℤ) : Option α :=
  if (rows.length : ℤ) ≤ r then none
  else
    let cells : List α := (jqEq rows r).getD []
    if (cells.length : ℤ) ≤ c then none
    else jqEq cells c

/-- A DOM cell as far as `Utils.getCellText` inspects it: its `title`
attribute, the text of its first nested `span` (if any), its full text
content, and its first nested link's `href`/text (if any). -/
structure CellNode where
  title : Option Str
  firstSpan : Option Str
  textContent : Str
  firstLink : Option (Option Str × Str)

/-- The uncached body of v2.0.0 `Utils.getCellText` (lines 217-243):
prefer a truthy `title` attribute; if absent, empty, or the sentinel
`"No target defined"`, fall back to the first span's text (else the cell's
text), and if that is blank, to the first link's `href` (else its text);
finally trim. -/
def computeCellText (cell : CellNode) : Str :=
  let text0 : Str :=
    match cell.title with
    | some t => if t.isEmpty then [] else t
    | none => []
  let text1 : Str :=
    if text0.isEmpty || text0 == ("No target defined".data) then
      let t : Str :=
        match cell.firstSpan with
        | some s => s
        | none => cell.textContent
      match cell.firstLink with
      | some link =>
        if (trimStr t).isEmpty then
          match link.1 with
          | some h => if h.isEmpty then link.2 else h
          | none => link.2
        else t
      | none => t
    else text0
  trimStr text1

/-- v2.0.0 `Utils.getCellText` with its `WeakMap` cache keyed by DOM-node
identity (node identities modelled as naturals): on a hit return the cached
string unchanged; on a miss compute, store, and return. Returns the result
together with the updated cache. -/
def getCellTextCached (cache : ℕ → Option Str) (id : ℕ) (cell : CellNode) :
    Str × (ℕ → Option Str) :=
  match cache id with
  | some v => (v, cache)
  | none =>
    let result := computeCellText cell
    (result, fun j => if j = id then some result else cache j)

/-- `CONFIG.maxSelectionSize` of v2.0.0. -/
def CONFIG_maxSelectionSize : ℕ := 2500

/-- `ErrorHandler.maxErrors` of v2.0.0. -/
def ErrorHandler_maxErrors : ℕ := 5

/-- The integers from `a` to `b` inclusive, in order: the values taken by
`for (x = a; x <= b; x++)`. -/
def rangeInt (a b : ℤ) : List ℤ :=
  (List.range (b + 1 - a).toNat).map (fun i : ℕ => a + (i : ℤ))

/-- The coordinate list generated by the nested loops of
`Grid.getRectangleKeys` after min/max normalisation of the two corners
(row-major, both axes inclusive). -/
def rawRectKeys (startR startC endR endC : ℤ) : List Coord :=
  (rangeInt (min startR endR) (max startR endR)).flatMap
    (fun r => (rangeInt (min startC endC) (max startC endC)).map (fun c => (r, c)))

/-- `totalCells` as computed by `Grid.getRectangleKeys`:
`(r2 - r1 + 1) * (c2 - c1 + 1)` on the normalised corners. -/
def rectTotal (startR startC endR endC : ℤ) : ℤ :=
  (max startR endR - min startR endR + 1) * (max startC endC - min startC endC + 1)

/-- `Grid.getRectangleKeys` of v2.0.0 (lines 314-331): normalise the
corners, refuse rectangles larger than the configured ceiling by returning
the empty key list, otherwise enumerate the rectangle. The ceiling is a
parameter (`CONFIG.maxSelectionSize`, 2500 in the shipped config). -/
def getRectangleKeys (maxSize : ℕ) (startR startC endR endC : ℤ) : List Coord :=
  if rectTotal startR startC endR endC > (maxSize : ℤ) then []
  else rawRectKeys startR startC endR endC

/-- The mutable fields of `SelectionState` (plus the two UI queues it
feeds): the selection set, the paint/unpaint queues, the drag state and
the keyboard/modifier/selecting-mode flags. -/
structure Engine where
  selection : Finset Coord
  paintQueue : Finset Coord
  unpaintQueue : Finset Coord
  dragging : Bool
  startRow : ℤ
  startCol : ℤ
  currentRow : ℤ
  currentCol : ℤ
  keyboardMode : Bool
  modifierHeld : Bool
  selectingMode : Bool
  deriving DecidableEq

/-- `SelectionState.init()` / the initial module state. The JS initialises
the drag coordinates to `null`; they are modelled as `0` and are only read
after a drag start has set them. -/
def Engine.init : Engine :=
  { selection := ∅, paintQueue := ∅, unpaintQueue := ∅, dragging := false,
    startRow := 0, startCol := 0, currentRow := 0, currentCol := 0,
    keyboardMode := false, modifierHeld := false, selectingMode := false }

/-- `SelectionState.paint()`: when the selection is empty it only touches
the DOM (unhighlight, hide stats); otherwise it enqueues every selected
key for painting (and triggers the throttled batch paint and stats, which
are DOM effects). -/
def paintE (en : Engine) : Engine :=
  if en.selection = ∅ then en
  else { en with paintQueue := en.paintQueue ∪ en.selection }

/-- `SelectionState.clear()` (Escape): empty the selection and both
queues, drop the selecting-mode body class. -/
def clearE (en : Engine) : Engine :=
  { en with selection := ∅, paintQueue := ∅, unpaintQueue := ∅, selectingMode := false }

/-- `SelectionState.emergencyReset()`: clear selection, release drag and
keyboard state, flush the queues, drop selecting mode. -/
def emergencyResetE (en : Engine) : Engine :=
  { en with selection := ∅, dragging := false, keyboardMode := false,
            modifierHeld := false, paintQueue := ∅, unpaintQueue := ∅,
            selectingMode := false }

/-- `SelectionState.addRectangleSelection` of v2.0.0 (lines 666-682):
compute the rectangle keys (empty if the rectangle alone exceeds the
ceiling), reject if the current size plus the key count would exceed the
ceiling, otherwise add every key to the selection and the paint queue.
Returns the JS boolean result together with the updated state. -/
def addRectangleSelection (maxSize : ℕ) (en : Engine)
    (startR startC endR endC : ℤ) : Bool × Engine :=
  let keys := getRectangleKeys maxSize startR startC endR endC
  if keys.length = 0 then (false, en)
  else if en.selection.card + keys.length > maxSize then (false, en)
  else
    (true, { en with selection := en.selection ∪ keys.toFinset,
                     paintQueue := en.paintQueue ∪ keys.toFinset })

/-- The cells of row `rowIndex` of a grid. A grid is modelled as its rows,
each row the list of its cells, a cell carrying only the one bit the
selection operations inspect: whether it sits in a header context. -/
def rowCells (grid : List (List Bool)) (rowIndex : ℤ) : List Bool :=
  (jqEq grid rowIndex).getD []

/-- The keys collected by the `rows.each` loop of
`SelectionState.selectColumn`: one key per row whose cell at `colIndex`
exists and passes the header filter. -/
def colKeys (grid : List (List Bool)) (colIndex : ℤ) (includeHeader : Bool) :
    List Coord :=
  (List.range grid.length).filterMap (fun rowIndex =>
    match jqEq (grid.getD rowIndex []) colIndex with
    | none => none
    | some isHead =>
      if includeHeader || !isHead then some ((rowIndex : ℤ), colIndex) else none)

/-- `SelectionState.selectColumn` of v2.0.0 (lines 684-717): reject when
the row count exceeds the ceiling (state untouched); otherwise replace the
selection and paint queue with the column's keys and paint. -/
def selectColumnE (grid : List (List Bool)) (maxSize : ℕ) (colIndex : ℤ)
    (includeHeader : Bool) (en : Engine) : Engine :=
  if grid.length > maxSize then en
  else
    let keys := colKeys grid colIndex includeHeader
    paintE { en with selection := keys.toFinset, paintQueue := keys.toFinset }

/-- The keys collected by the `cells.each` loop of
`SelectionState.selectRow`: one key per cell of the row. -/
def rowKeys (grid : List (List Bool)) (rowIndex : ℤ) : List Coord :=
  (List.range (rowCells grid rowIndex).length).map (fun c : ℕ => (rowIndex, (c : ℤ)))

/-- `SelectionState.selectRow` of v2.0.0 (lines 719-738): reject when the
row's cell count exceeds the ceiling; otherwise replace the selection and
paint queue with the row's keys and paint. -/
def selectRowE (grid : List (List Bool)) (maxSize : ℕ) (rowIndex : ℤ)
    (en : Engine) : Engine :=
  let cells := rowCells grid rowIndex
  if cells.length > maxSize then en
  else
    let keys := rowKeys grid rowIndex
    paintE { en with selection := keys.toFinset, paintQueue := keys.toFinset }

/-- `SelectionState.updateDrag` of v2.0.0 (lines 761-787) with the target
cell already resolved to `(newRow, newCol)`: short-circuit when the
resolved coordinate equals the current one; otherwise record the new
coordinate, on a non-extending drag move the selection to the unpaint
queue and clear it, add the start-to-current rectangle, and on success
schedule a repaint (`UI.batchPaint`). The Bool reports whether a repaint
was scheduled. -/
def updateDragE (maxSize : ℕ) (en : Engine) (newRow newCol : ℤ)
    (extending : Bool) : Engine × Bool :=
  if newRow = en.currentRow ∧ newCol = en.currentCol then (en, false)
  else
    let en1 := { en with currentRow := newRow, currentCol := newCol }
    let en2 :=
      if !extending then
        { en1 with unpaintQueue := en1.unpaintQueue ∪ en1.selection, selection := ∅ }
      else en1
    let r := addRectangleSelection maxSize en2 en2.startRow en2.startCol newRow newCol
    (r.2, r.1)

/-- The selection-growing operations of claim C1, with the geometry of a
column/row operation resolved against a fixed grid. -/
inductive SelOp where
  | addRect (startR startC endR endC : ℤ)
  | selCol (colIndex : ℤ) (includeHeader : Bool)
  | selRow (rowIndex : ℤ)

/-- One selection-growing operation applied to the engine state. -/
def stepOp (grid : List (List Bool)) (maxSize : ℕ) (en : Engine) : SelOp → Engine
  | .addRect r1 c1 r2 c2 => (addRectangleSelection maxSize en r1 c1 r2 c2).2
  | .selCol colIndex includeHeader => selectColumnE grid maxSize colIndex includeHeader en
  | .selRow rowIndex => selectRowE grid maxSize rowIndex en

/-- The selection an operation is trying to establish, ignoring the
capacity guard: the union with the full rectangle for `addRect`, the
replacement key set for `selCol`/`selRow`. An operation "would violate the
ceiling" exactly when this set is larger than `maxSelectionSize`. -/
def opWouldBe (grid : List (List Bool)) (en : Engine) : SelOp → Finset Coord
  | .addRect r1 c1 r2 c2 => en.selection ∪ (rawRectKeys r1 c1 r2 c2).toFinset
  | .selCol colIndex includeHeader => (colKeys grid colIndex includeHeader).toFinset
  | .selRow rowIndex => (rowKeys grid rowIndex).toFinset

/-- The record returned by `UI.calculateStats`. -/
structure StatsR where
  cells : ℕ
  rows : ℕ
  cols : ℕ
  sum : ℚ
  minV : ℚ
  maxV : ℚ
  avg : ℚ
  numericCount : ℕ

/-- The numeric content categories aggregated by the stats panel. -/
def isNumericType (ty : ContentType) : Bool :=
  ty == .number || ty == .currency || ty == .percentage

/-- `UI.calculateStats` of v2.0.0 (lines 546-600). The `for ... of` loop
over the selection breaks once `processed++ > 500`, i.e. it visits only
the first 501 keys in iteration order; `rowsMap` and `colsSet` are filled
inside that loop, while `cells` is `selection.size`. The numeric
aggregation additionally runs only when `selection.size < 500` (in which
case the 501-cap never binds), and skips values that parse to `NaN`.
The selection is passed as the list of its keys in `Set` iteration
(insertion) order; `text` is the composite `getCellText(getCell(r, c))`
lookup. -/
def calculateStats (text : ℤ → ℤ → Str) (sel : List Coord) : StatsR :=
  let processed := sel.take 501
  let numericValues : List ℚ :=
    if sel.length < 500 then
      processed.filterMap (fun p =>
        let t := text p.1 p.2
        if isNumericType (detectContentType t) then parseNumericValue t else none)
    else []
  let sum : ℚ := numericValues.foldl (· + ·) 0
  { cells := sel.length
    rows := ((processed.map (·.1)).dedup).length
    cols := ((processed.map (·.2)).dedup).length
    sum := sum
    minV := match numericValues with | [] => 0 | h :: t => t.foldl min h
    maxV := match numericValues with | [] => 0 | h :: t => t.foldl max h
    avg := if numericValues.length ≠ 0 then sum / (numericValues.length : ℚ) else 0
    numericCount := numericValues.length }

/-- JS `Array.prototype.join(sep)` for a single-character separator. -/
def joinSep (sep : Char) : List Str → Str
  | [] => []
  | [x] => x
  | x :: xs => x ++ sep :: joinSep sep xs

/-- JS `String.prototype.split(sep)` for a single-character separator:
always returns at least one (possibly empty) chunk. -/
def splitOnChar (sep : Char) : Str → List Str
  | [] => [[]]
  | c :: cs =>
    if c = sep then [] :: splitOnChar sep cs
    else
      match splitOnChar sep cs with
      | [] => [[c]]
      | h :: t => (c :: h) :: t

/-- JS `Array.prototype.sort((a, b) => a - b)` on integers. -/
def sortInts (l : List ℤ) : List ℤ :=
  List.insertionSort (· ≤ ·) l

/-- The `rowsMap` built by `Clipboard.copySelection` from the spread
selection: for each row, the columns selected in that row, in selection
iteration order. -/
def rowsMapOf (sel : List Coord) (r : ℤ) : List ℤ :=
  (sel.filter (fun p => p.1 == r)).map (·.2)

/-- The `rowIndices` of `Clipboard.copySelection`: the distinct selected
row indices, sorted ascending. -/
def rowIndicesOf (sel : List Coord) : List ℤ :=
  sortInts ((sel.map (·.1)).dedup)

/-- `Clipboard.formatAsTSV` of v2.0.0 (lines 838-860): keep the row
indices that pass the header policy, render each kept row by sorting its
column indices ascending and joining the cell texts with tabs, and join
the rows with newlines. `isHeader r` models
`rows.eq(r).closest("thead") / [role=columnheader]` detection. -/
def formatAsTSV (text : ℤ → ℤ → Str) (isHeader : ℤ → Bool)
    (rowsMap : ℤ → List ℤ) (rowIndices : List ℤ) (includeHeaders : Bool) : Str :=
  joinSep '\n'
    ((rowIndices.filter (fun r => includeHeaders || !isHeader r)).map
      (fun r => joinSep '\t' ((sortInts (rowsMap r)).map (fun c => text r c))))

/-- `Clipboard.copySelection` of v2.0.0 (lines 798-836) restricted to its
output string (the clipboard write and toast are external effects):
group the selection by row, sort the row indices, infer the header policy
when the caller passes `null`, and format as TSV. The selection is passed
in `Set` iteration order; the JS early-returns on an empty selection
without writing, so callers only observe this on nonempty selections. -/
def copySelectionTSV (text : ℤ → ℤ → Str) (isHeader : ℤ → Bool)
    (includeHeaders : Option Bool) (sel : List Coord) : Str :=
  let rowIndices := rowIndicesOf sel
  let shouldInclude :=
    match includeHeaders with
    | some b => b
    | none => rowIndices.any isHeader
  formatAsTSV text isHeader (rowsMapOf sel) rowIndices shouldInclude

/-- The modifier/button payload of a pointer or keyboard event. -/
structure PageEv where
  button : ℕ
  altKey : Bool
  metaKey : Bool
  shiftKey : Bool
  deriving DecidableEq

/-- `Utils.isPrimary`: both configured primary keys are truthy strings, so
this is `altKey || metaKey`. -/
def isPrimaryEv (e : PageEv) : Bool := e.altKey || e.metaKey

/-- `Utils.isExtending`. -/
def isExtendingEv (e : PageEv) : Bool := e.shiftKey

/-- The error classes distinguished by `ErrorHandler.handleError` via
`error.message` inspection. -/
inductive ErrKind where
  | stackOverflow
  | outOfMemory
  | generic
  deriving DecidableEq

/-- The keys distinguished by `EventHandlers.handleKeyDown` of v2.0.0
(which only treats Escape specially). -/
inductive KeyT where
  | escape
  | other
  deriving DecidableEq

/-- The whole-script state for the event layer: the selection engine,
`ErrorHandler.errorCount`, `EventHandlers.enabled`, and whether the
`.smartgrid`-namespaced mouse listeners are still attached (removed by
`EventHandlers.disable`; the window keydown/keyup/error listeners are
never removed). -/
structure SysState where
  engine : Engine
  errorCount : ℕ
  enabled : Bool
  mouseAttached : Bool
  deriving DecidableEq

/-- The state after `init()`. -/
def SysState.init : SysState :=
  { engine := Engine.init, errorCount := 0, enabled := true, mouseAttached := true }

/-- `ErrorHandler.handleError` of v2.0.0 (lines 155-175): count the fault;
past `maxErrors` run `emergencyCleanup` (reset the engine, disable the
event layer); otherwise reset the engine on stack-overflow or
out-of-memory messages. -/
def handleErrorS (s : SysState) (k : ErrKind) : SysState :=
  let s1 := { s with errorCount := s.errorCount + 1 }
  if s1.errorCount > ErrorHandler_maxErrors then
    { s1 with engine := emergencyResetE s1.engine, enabled := false,
              mouseAttached := false }
  else
    match k with
    | .stackOverflow => { s1 with engine := emergencyResetE s1.engine }
    | .outOfMemory => { s1 with engine := emergencyResetE s1.engine }
    | .generic => s1

/-- `EventHandlers.handleMouseDown` of v2.0.0 (lines 918-955) with the
target already resolved to a cell coordinate (`none`: the click landed on
no cell). The interactive-element guard re-tests `isPrimary`, which holds
on this path, so it never returns. -/
def handleMouseDownS (maxSize : ℕ) (s : SysState) (e : PageEv)
    (cell : Option Coord) : SysState :=
  if !s.enabled || e.button != 0 || !isPrimaryEv e then s
  else
    match cell with
    | none => s
    | some rc =>
      let r := rc.1
      let c := rc.2
      let en := { s.engine with
        startRow := r, startCol := c, currentRow := r, currentCol := c,
        dragging := true }
      let en := if !isExtendingEv e then { en with selection := ∅ } else en
      let en := (addRectangleSelection maxSize en r c r c).2
      let en := paintE en
      { s with engine := { en with selectingMode := true } }

/-- `EventHandlers.handleMouseMove` of v2.0.0 (lines 981-995) with the
target resolved. -/
def handleMouseMoveS (maxSize : ℕ) (s : SysState) (e : PageEv)
    (cell : Option Coord) : SysState :=
  if !s.enabled || !s.engine.dragging then s
  else
    match cell with
    | none => s
    | some rc =>
      { s with engine := (updateDragE maxSize s.engine rc.1 rc.2 (isExtendingEv e)).1 }

/-- `SelectionState.endDrag`. -/
def endDragE (en : Engine) : Engine :=
  paintE { en with dragging := false, selectingMode := false }

/-- `EventHandlers.handleMouseUp` of v2.0.0 (lines 997-1017): end the
drag; the copy branch only reads state and writes the clipboard/toast. -/
def handleMouseUpS (s : SysState) : SysState :=
  if !s.enabled || !s.engine.dragging then s
  else { s with engine := endDragE s.engine }

/-- `EventHandlers.handleDoubleClick` of v2.0.0 (lines 957-979) with the
target resolved to its column index (`none`: no cell). -/
def handleDoubleClickS (grid : List (List Bool)) (maxSize : ℕ) (s : SysState)
    (e : PageEv) (cellCol : Option ℤ) : SysState :=
  if !s.enabled then s
  else
    match cellCol with
    | none => s
    | some col =>
      if !isPrimaryEv e then s
      else if col = -1 then s
      else { s with engine := selectColumnE grid maxSize col (isExtendingEv e) s.engine }

/-- `EventHandlers.handleKeyDown` of v2.0.0 (lines 1019-1031). Note: this
handler has no `enabled` guard and its window listener is never removed. -/
def handleKeyDownS (s : SysState) (k : KeyT) (e : PageEv) : SysState :=
  match k with
  | .escape => { s with engine := clearE s.engine }
  | .other =>
    if isPrimaryEv e && !s.engine.modifierHeld then
      { s with engine := { s.engine with modifierHeld := true, selectingMode := true } }
    else s

/-- `EventHandlers.handleKeyUp` of v2.0.0 (lines 1033-1040); also without
an `enabled` guard. -/
def handleKeyUpS (s : SysState) (e : PageEv) : SysState :=
  if !isPrimaryEv e then
    let en := { s.engine with modifierHeld := false }
    let en := if !en.dragging then { en with selectingMode := false } else en
    { s with engine := en }
  else s

/-- The input/fault events reaching the script's listeners, with DOM
resolution (target cell, column index) already carried in the event. -/
inductive Ev where
  | errorEv (k : ErrKind)
  | mousedown (e : PageEv) (cell : Option Coord)
  | mousemove (e : PageEv) (cell : Option Coord)
  | mouseup (e : PageEv)
  | dblclick (e : PageEv) (cellCol : Option ℤ)
  | keydown (k : KeyT) (e : PageEv)
  | keyup (e : PageEv)

/-- Whether an event is dispatched through the `.smartgrid`-namespaced
jQuery mouse listeners (the ones `EventHandlers.disable` removes). -/
def isMouseEv : Ev → Bool
  | .mousedown _ _ => true
  | .mousemove _ _ => true
  | .mouseup _ => true
  | .dblclick _ _ => true
  | _ => false

/-- One event dispatched against the script: mouse events only reach their
handlers while the jQuery listeners are attached; the window-level
keydown/keyup/error listeners always fire. -/
def stepEv (grid : List (List Bool)) (maxSize : ℕ) (s : SysState) : Ev → SysState
  | .errorEv k => handleErrorS s k
  | .mousedown e cell => if s.mouseAttached then handleMouseDownS maxSize s e cell else s
  | .mousemove e cell => if s.mouseAttached then handleMouseMoveS maxSize s e cell else s
  | .mouseup _ => if s.mouseAttached then handleMouseUpS s else s
  | .dblclick e cellCol =>
      if s.mouseAttached then handleDoubleClickS grid maxSize s e cellCol else s
  | .keydown k e => handleKeyDownS s k e
  | .keyup e => handleKeyUpS s e

/-! Helper lemmas about the rectangle enumeration, the queues and the
split/join/sort primitives. -/

theorem paintE_selection (en : Engine) : (paintE en).selection = en.selection := by
  unfold paintE
  split <;> rfl

theorem addRect_keeps_current (maxSize : ℕ) (en : Engine) (a b cR cC : ℤ) :
    (addRectangleSelection maxSize en a b cR cC).2.currentRow = en.currentRow ∧
    (addRectangleSelection maxSize en a b cR cC).2.currentCol = en.currentCol := by
  unfold addRectangleSelection
  dsimp only
  split
  · exact ⟨rfl, rfl⟩
  · split <;> exact ⟨rfl, rfl⟩

theorem rangeInt_length (a b : ℤ) : (rangeInt a b).length = (b + 1 - a).toNat := by
  rw [rangeInt, List.length_map, List.length_range]

theorem mem_rangeInt (a b x : ℤ) : x ∈ rangeInt a b ↔ a ≤ x ∧ x ≤ b := by
  rw [rangeInt]
  constructor
  · intro h
    obtain ⟨i, hi, hx⟩ := List.mem_map.mp h
    rw [List.mem_range] at hi
    omega
  · rintro ⟨h1, h2⟩
    refine List.mem_map.mpr ⟨(x - a).toNat, ?_, ?_⟩
    · rw [List.mem_range]
      omega
    · omega

theorem rangeInt_nodup (a b : ℤ) : (rangeInt a b).Nodup := by
  rw [rangeInt]
  refine List.Nodup.map ?_ (List.nodup_range _)
  intro i j hij
  dsimp only at hij
  omega

theorem rangeInt_sorted (a b : ℤ) : List.Sorted (· ≤ ·) (rangeInt a b) := by
  rw [rangeInt]
  refine List.Pairwise.map _ ?_ (List.pairwise_lt_range _)
  intro i j hij
  omega

theorem rangeInt_ne_nil (a b : ℤ) (h : a ≤ b) : rangeInt a b ≠ [] := by
  intro hnil
  have hl := rangeInt_length a b
  rw [hnil] at hl
  simp at hl
  omega

theorem rawRectKeys_eq_product (r1 c1 r2 c2 : ℤ) :
    rawRectKeys r1 c1 r2 c2
      = (rangeInt (min r1 r2) (max r1 r2)) ×ˢ (rangeInt (min c1 c2) (max c1 c2)) := rfl

theorem rawRectKeys_nodup (r1 c1 r2 c2 : ℤ) : (rawRectKeys r1 c1 r2 c2).Nodup := by
  rw [rawRectKeys_eq_product]
  exact List.Nodup.product (rangeInt_nodup _ _) (rangeInt_nodup _ _)

theorem mem_rawRectKeys (r1 c1 r2 c2 : ℤ) (p : Coord) :
    p ∈ rawRectKeys r1 c1 r2 c2 ↔
      min r1 r2 ≤ p.1 ∧ p.1 ≤ max r1 r2 ∧ min c1 c2 ≤ p.2 ∧ p.2 ≤ max c1 c2 := by
  obtain ⟨x, y⟩ := p
  rw [rawRectKeys_eq_product]
  simp [List.mem_product, mem_rangeInt]
  tauto

theorem rawRectKeys_length_int (r1 c1 r2 c2 : ℤ) :
    ((rawRectKeys r1 c1 r2 c2).length : ℤ) = rectTotal r1 c1 r2 c2 := by
  rw [rawRectKeys_eq_product, List.length_product, rectTotal]
  push_cast [rangeInt_length]
  rw [Int.toNat_of_nonneg (by omega), Int.toNat_of_nonneg (by omega)]
  ring

theorem rectTotal_pos (r1 c1 r2 c2 : ℤ) : 0 < rectTotal r1 c1 r2 c2 := by
  have h1 : 0 < max r1 r2 - min r1 r2 + 1 := by omega
  have h2 : 0 < max c1 c2 - min c1 c2 + 1 := by omega
  exact mul_pos h1 h2

theorem rawRectKeys_card (r1 c1 r2 c2 : ℤ) :
    (((rawRectKeys r1 c1 r2 c2).toFinset.card : ℤ)) = rectTotal r1 c1 r2 c2 := by
  rw [List.toFinset_card_of_nodup (rawRectKeys_nodup r1 c1 r2 c2)]
  exact rawRectKeys_length_int r1 c1 r2 c2

theorem rectTotal_natAbs (r1 c1 r2 c2 : ℤ) :
    rectTotal r1 c1 r2 c2 = ((((r2 - r1).natAbs + 1) * ((c2 - c1).natAbs + 1) : ℕ) : ℤ) := by
  have h1 : max r1 r2 - min r1 r2 = ((r2 - r1).natAbs : ℤ) := by
    rcases le_total r1 r2 with h | h
    · rw [max_eq_right h, min_eq_left h]; omega
    · rw [max_eq_left h, min_eq_right h]; omega
  have h2 : max c1 c2 - min c1 c2 = ((c2 - c1).natAbs : ℤ) := by
    rcases le_total c1 c2 with h | h
    · rw [max_eq_right h, min_eq_left h]; omega
    · rw [max_eq_left h, min_eq_right h]; omega
  rw [rectTotal, h1, h2]
  push_cast
  ring

theorem rawRectKeys_comm (r1 c1 r2 c2 : ℤ) :
    rawRectKeys r1 c1 r2 c2 = rawRectKeys r2 c2 r1 c1 := by
  unfold rawRectKeys
  rw [min_comm r1 r2, max_comm r1 r2, min_comm c1 c2, max_comm c1 c2]

theorem rectTotal_comm (r1 c1 r2 c2 : ℤ) :
    rectTotal r1 c1 r2 c2 = rectTotal r2 c2 r1 c1 := by
  unfold rectTotal
  rw [min_comm r1 r2, max_comm r1 r2, min_comm c1 c2, max_comm c1 c2]

theorem addRect_corner_comm (maxSize : ℕ) (en : Engine) (r1 c1 r2 c2 : ℤ) :
    addRectangleSelection maxSize en r1 c1 r2 c2
      = addRectangleSelection maxSize en r2 c2 r1 c1 := by
  unfold addRectangleSelection getRectangleKeys
  rw [rectTotal_comm r1 c1 r2 c2, rawRectKeys_comm r1 c1 r2 c2]

/-- Exhaustive case analysis of `addRectangleSelection`: it either rejects
(returning `false` with the state untouched), which happens exactly when
the current size plus the full rectangle size passes the ceiling, or it
unions the rectangle into the selection and paint queue. -/
theorem addRect_cases (maxSize : ℕ) (en : Engine) (r1 c1 r2 c2 : ℤ) :
    (addRectangleSelection maxSize en r1 c1 r2 c2 = (false, en) ∧
      (maxSize : ℤ) < (en.selection.card : ℤ) + rectTotal r1 c1 r2 c2) ∨
    (addRectangleSelection maxSize en r1 c1 r2 c2
        = (true, { en with
            selection := en.selection ∪ (rawRectKeys r1 c1 r2 c2).toFinset,
            paintQueue := en.paintQueue ∪ (rawRectKeys r1 c1 r2 c2).toFinset }) ∧
      (en.selection.card : ℤ) + rectTotal r1 c1 r2 c2 ≤ (maxSize : ℤ)) := by
  have hlen := rawRectKeys_length_int r1 c1 r2 c2
  have hpos := rectTotal_pos r1 c1 r2 c2
  unfold addRectangleSelection getRectangleKeys
  by_cases hbig : rectTotal r1 c1 r2 c2 > (maxSize : ℤ)
  · left
    rw [if_pos hbig]
    refine ⟨?_, by omega⟩
    simp
  · rw [if_neg hbig]
    have hne : (rawRectKeys r1 c1 r2 c2).length ≠ 0 := by omega
    rw [if_neg hne]
    by_cases hcap : en.selection.card + (rawRectKeys r1 c1 r2 c2).length > maxSize
    · left
      rw [if_pos hcap]
      exact ⟨rfl, by omega⟩
    · right
      rw [if_neg hcap]
      exact ⟨rfl, by omega⟩

/-- Failure characterisation of `addRectangleSelection`: the `false`
result occurs iff the current size plus the full (overlap-insensitive)
rectangle size exceeds the ceiling, and a failed call leaves the whole
state unchanged. -/
theorem addRect_fail_iff (maxSize : ℕ) (en : Engine) (r1 c1 r2 c2 : ℤ) :
    ((addRectangleSelection maxSize en r1 c1 r2 c2).1 = false ↔
      (maxSize : ℤ) < (en.selection.card : ℤ) + rectTotal r1 c1 r2 c2) ∧
    ((addRectangleSelection maxSize en r1 c1 r2 c2).1 = false →
      (addRectangleSelection maxSize en r1 c1 r2 c2).2 = en) := by
  rcases addRect_cases maxSize en r1 c1 r2 c2 with ⟨heq, hgt⟩ | ⟨heq, hle⟩
  · refine ⟨⟨fun _ => hgt, fun _ => by rw [heq]⟩, fun _ => by rw [heq]⟩
  · constructor
    · constructor
      · intro hf
        rw [heq] at hf
        exact absurd hf (by simp)
      · intro hgt
        omega
    · intro hf
      rw [heq] at hf
      exact absurd hf (by simp)

/-- Each selection-growing operation preserves the capacity bound. -/
theorem stepOp_card_le (grid : List (List Bool)) (maxSize : ℕ) (en : Engine) (op : SelOp)
    (h : en.selection.card ≤ maxSize) :
    (stepOp grid maxSize en op).selection.card ≤ maxSize := by
  cases op with
  | addRect r1 c1 r2 c2 =>
    rcases addRect_cases maxSize en r1 c1 r2 c2 with ⟨heq, _⟩ | ⟨heq, hle⟩
    · simp [stepOp, heq, h]
    · have hcard := rawRectKeys_card r1 c1 r2 c2
      have hunion := Finset.card_union_le en.selection (rawRectKeys r1 c1 r2 c2).toFinset
      simp only [stepOp, heq]
      omega
  | selCol colIndex includeHeader =>
    simp only [stepOp, selectColumnE]
    split
    · exact h
    · next hg =>
      rw [paintE_selection]
      dsimp only
      have h1 : (colKeys grid colIndex includeHeader).toFinset.card
          ≤ (colKeys grid colIndex includeHeader).length := List.toFinset_card_le _
      have h2 : (colKeys grid colIndex includeHeader).length ≤ grid.length := by
        unfold colKeys
        calc ((List.range grid.length).filterMap _).length
            ≤ (List.range grid.length).length := List.length_filterMap_le _ _
          _ = grid.length := List.length_range _
      omega
  | selRow rowIndex =>
    simp only [stepOp, selectRowE]
    split
    · exact h
    · next hg =>
      rw [paintE_selection]
      dsimp only
      have h1 : (rowKeys grid rowIndex).toFinset.card
          ≤ (rowKeys grid rowIndex).length := List.toFinset_card_le _
      have h2 : (rowKeys grid rowIndex).length = (rowCells grid rowIndex).length := by
        unfold rowKeys
        rw [List.length_map, List.length_range]
      omega

theorem splitOnChar_ne_nil (sep : Char) (l : Str) : splitOnChar sep l ≠ [] := by
  induction l with
  | nil => simp [splitOnChar]
  | cons c cs ih =>
    unfold splitOnChar
    split
    · simp
    · split
      · simp
      · simp

theorem splitOnChar_sep_cons (sep : Char) (l : Str) :
    splitOnChar sep (sep :: l) = [] :: splitOnChar sep l := by
  conv_lhs => rw [splitOnChar]
  rw [if_pos rfl]

theorem splitOnChar_append (sep : Char) (p l : Str) (hp : sep ∉ p) :
    splitOnChar sep (p ++ l) = (splitOnChar sep l).modifyHead (fun h => p ++ h) := by
  induction p with
  | nil =>
    cases h : splitOnChar sep l with
    | nil => exact absurd h (splitOnChar_ne_nil sep l)
    | cons a t => simp [h]
  | cons c p ih =>
    have hc : c ≠ sep := fun hcc => hp (hcc ▸ List.mem_cons_self c p)
    have hp2 : sep ∉ p := fun hmem => hp (List.mem_cons_of_mem c hmem)
    rw [List.cons_append]
    conv_lhs => rw [splitOnChar]
    rw [if_neg hc, ih hp2]
    cases h : splitOnChar sep l with
    | nil => exact absurd h (splitOnChar_ne_nil sep l)
    | cons a t => simp [h]

/-- Splitting inverts joining as long as no chunk contains the separator. -/
theorem splitOnChar_joinSep (sep : Char) (ps : List Str) (hne : ps ≠ [])
    (hfree : ∀ p ∈ ps, sep ∉ p) :
    splitOnChar sep (joinSep sep ps) = ps := by
  induction ps with
  | nil => exact absurd rfl hne
  | cons p rest ih =>
    cases rest with
    | nil =>
      show splitOnChar sep (joinSep sep [p]) = [p]
      have : joinSep sep [p] = p := rfl
      rw [this, ← List.append_nil p,
        splitOnChar_append sep p [] (hfree p (List.mem_cons_self p [])),
        List.append_nil]
      simp [splitOnChar]
    | cons q rest2 =>
      have hj : joinSep sep (p :: q :: rest2) = p ++ sep :: joinSep sep (q :: rest2) := rfl
      rw [hj, splitOnChar_append sep p _ (hfree p (List.mem_cons_self p _)),
        splitOnChar_sep_cons,
        ih (by simp) (fun x hx => hfree x (List.mem_cons_of_mem p hx))]
      simp

theorem mem_joinSep (sep : Char) (ps : List Str) (c : Char) (h : c ∈ joinSep sep ps) :
    c = sep ∨ ∃ p ∈ ps, c ∈ p := by
  induction ps with
  | nil => exact absurd h (by simp [joinSep])
  | cons p rest ih =>
    cases rest with
    | nil =>
      right
      exact ⟨p, List.mem_cons_self p [], h⟩
    | cons q rest2 =>
      have hj : joinSep sep (p :: q :: rest2) = p ++ sep :: joinSep sep (q :: rest2) := rfl
      rw [hj] at h
      rcases List.mem_append.mp h with hin | hin
      · exact Or.inr ⟨p, List.mem_cons_self p _, hin⟩
      · rcases List.mem_cons.mp hin with hceq | hin2
        · exact Or.inl hceq
        · rcases ih hin2 with hs | ⟨x, hx, hcx⟩
          · exact Or.inl hs
          · exact Or.inr ⟨x, List.mem_cons_of_mem p hx, hcx⟩

/-- A sort-by-≤ of a duplicate-free integer list is determined by its
membership predicate. -/
theorem sortInts_eq (l target : List ℤ) (hnodl : l.Nodup) (hnodt : target.Nodup)
    (hsorted : List.Sorted (· ≤ ·) target) (hmem : ∀ x, x ∈ l ↔ x ∈ target) :
    sortInts l = target := by
  have hperm : l.Perm target := (List.perm_ext_iff_of_nodup hnodl hnodt).mpr hmem
  exact List.eq_of_perm_of_sorted ((List.perm_insertionSort _ l).trans hperm)
    (List.sorted_insertionSort _ l) hsorted

/-- For a selection that enumerates a rectangle in any order, the sorted
distinct row indices are exactly the rectangle's row range. -/
theorem rowIndicesOf_rect (sel : List Coord) (r1 c1 r2 c2 : ℤ)
    (hperm : sel.Perm (rawRectKeys r1 c1 r2 c2)) :
    rowIndicesOf sel = rangeInt (min r1 r2) (max r1 r2) := by
  apply sortInts_eq
  · exact List.nodup_dedup _
  · exact rangeInt_nodup _ _
  · exact rangeInt_sorted _ _
  · intro x
    rw [List.mem_dedup, mem_rangeInt]
    constructor
    · intro hx
      obtain ⟨p, hp, hfst⟩ := List.mem_map.mp hx
      have hb := (mem_rawRectKeys _ _ _ _ p).mp (hperm.mem_iff.mp hp)
      omega
    · rintro ⟨hx1, hx2⟩
      apply List.mem_map.mpr
      refine ⟨(x, min c1 c2), hperm.mem_iff.mpr ?_, rfl⟩
      rw [mem_rawRectKeys]
      exact ⟨hx1, hx2, le_refl _, min_le_max⟩

/-- Within each rectangle row, the sorted selected columns are exactly the
rectangle's column range. -/
theorem sorted_cols_rect (sel : List Coord) (r1 c1 r2 c2 : ℤ)
    (hperm : sel.Perm (rawRectKeys r1 c1 r2 c2)) (r : ℤ)
    (hr1 : min r1 r2 ≤ r) (hr2 : r ≤ max r1 r2) :
    sortInts (rowsMapOf sel r) = rangeInt (min c1 c2) (max c1 c2) := by
  have hnodup : sel.Nodup := hperm.nodup_iff.mpr (rawRectKeys_nodup r1 c1 r2 c2)
  apply sortInts_eq
  · apply List.Nodup.map_on
    · intro x hx y hy hxy
      have hx1 : x.1 = r := by simpa using (List.mem_filter.mp hx).2
      have hy1 : y.1 = r := by simpa using (List.mem_filter.mp hy).2
      exact Prod.ext (hx1.trans hy1.symm) hxy
    · exact hnodup.filter _
  · exact rangeInt_nodup _ _
  · exact rangeInt_sorted _ _
  · intro y
    rw [mem_rangeInt]
    constructor
    · intro hy
      obtain ⟨p, hp, hsnd⟩ := List.mem_map.mp hy
      have hpf := List.mem_filter.mp hp
      have h1 : p.1 = r := by simpa using hpf.2
      have hb := (mem_rawRectKeys _ _ _ _ p).mp (hperm.mem_iff.mp hpf.1)
      omega
    · rintro ⟨hy1, hy2⟩
      apply List.mem_map.mpr
      refine ⟨(r, y), List.mem_filter.mpr ⟨hperm.mem_iff.mpr ?_, by simp⟩, rfl⟩
      rw [mem_rawRectKeys]
      exact ⟨hr1, hr2, hy1, hy2⟩

/-! The claim theorems. -/

/-- Claim C1: for every sequence of selection-growing operations
(`addRectangleSelection`, `selectColumn`, `selectRow`) starting from the
initial state, `|Selection| ≤ maxSelectionSize` holds after each
operation; and any operation whose target selection would exceed the
ceiling is rejected atomically, leaving the whole state (in particular the
Selection) unchanged. -/
theorem C1_capacity_invariant (grid : List (List Bool)) (maxSize : ℕ) :
    (∀ ops : List SelOp,
      ((ops.foldl (stepOp grid maxSize) Engine.init).selection.card ≤ maxSize)) ∧
    (∀ (en : Engine) (op : SelOp),
      maxSize < (opWouldBe grid en op).card → stepOp grid maxSize en op = en) := by
  constructor
  · have gen : ∀ (ops : List SelOp) (en : Engine), en.selection.card ≤ maxSize →
        ((ops.foldl (stepOp grid maxSize) en).selection.card ≤ maxSize) := by
      intro ops
      induction ops with
      | nil => intro en h; exact h
      | cons op rest ih =>
        intro en h
        exact ih _ (stepOp_card_le grid maxSize en op h)
    refine fun ops => gen ops Engine.init ?_
    simp [Engine.init]
  · intro en op hviol
    cases op with
    | addRect r1 c1 r2 c2 =>
      rcases addRect_cases maxSize en r1 c1 r2 c2 with ⟨heq, _⟩ | ⟨heq, hle⟩
      · simp [stepOp, heq]
      · exfalso
        have hcard := rawRectKeys_card r1 c1 r2 c2
        have hunion := Finset.card_union_le en.selection (rawRectKeys r1 c1 r2 c2).toFinset
        simp only [opWouldBe] at hviol
        omega
    | selCol colIndex includeHeader =>
      have h1 : (colKeys grid colIndex includeHeader).toFinset.card
          ≤ (colKeys grid colIndex includeHeader).length := List.toFinset_card_le _
      have h2 : (colKeys grid colIndex includeHeader).length ≤ grid.length := by
        unfold colKeys
        calc ((List.range grid.length).filterMap _).length
            ≤ (List.range grid.length).length := List.length_filterMap_le _ _
          _ = grid.length := List.length_range _
      simp only [opWouldBe] at hviol
      simp only [stepOp, selectColumnE]
      rw [if_pos (by omega)]
    | selRow rowIndex =>
      have h1 : (rowKeys grid rowIndex).toFinset.card
          ≤ (rowKeys grid rowIndex).length := List.toFinset_card_le _
      have h2 : (rowKeys grid rowIndex).length = (rowCells grid rowIndex).length := by
        unfold rowKeys
        rw [List.length_map, List.length_range]
      simp only [opWouldBe] at hviol
      simp only [stepOp, selectRowE]
      rw [if_pos (by omega)]

/-- Witness for C1: with ceiling 0 the invariant holds after a single-cell
add, and that add (whose target has 1 > 0 cells) is rejected without any
state change. -/
theorem C1_capacity_witness :
    ((([SelOp.addRect 0 0 0 0] : List SelOp).foldl (stepOp [] 0) Engine.init).selection.card
        ≤ 0) ∧
    (0 < (opWouldBe [] Engine.init (SelOp.addRect 0 0 0 0)).card) ∧
    stepOp [] 0 Engine.init (SelOp.addRect 0 0 0 0) = Engine.init :=
  ⟨(C1_capacity_invariant [] 0).1 [SelOp.addRect 0 0 0 0],
   by decide,
   (C1_capacity_invariant [] 0).2 Engine.init (SelOp.addRect 0 0 0 0) (by decide)⟩

/-- Claim C2: for a within-capacity call, `addRectangleSelection` succeeds,
its result is the union of the prior selection with the min/max-normalised
rectangle, the number of coordinates added is exactly
`(|r2-r1|+1) * (|c2-c1|+1)` minus those already present, every added
coordinate lies within the normalised bounds, and the result is
independent of the order of the two corners. -/
theorem C2_addRectangle_rectangle (maxSize : ℕ) (en : Engine) (r1 c1 r2 c2 : ℤ)
    (h : en.selection.card + ((r2 - r1).natAbs + 1) * ((c2 - c1).natAbs + 1) ≤ maxSize) :
    (addRectangleSelection maxSize en r1 c1 r2 c2).1 = true ∧
    (addRectangleSelection maxSize en r1 c1 r2 c2).2.selection
        = en.selection ∪ (rawRectKeys r1 c1 r2 c2).toFinset ∧
    (addRectangleSelection maxSize en r1 c1 r2 c2).2.selection.card
        + (en.selection ∩ (rawRectKeys r1 c1 r2 c2).toFinset).card
        = en.selection.card + ((r2 - r1).natAbs + 1) * ((c2 - c1).natAbs + 1) ∧
    (∀ p ∈ (addRectangleSelection maxSize en r1 c1 r2 c2).2.selection \ en.selection,
        min r1 r2 ≤ p.1 ∧ p.1 ≤ max r1 r2 ∧ min c1 c2 ≤ p.2 ∧ p.2 ≤ max c1 c2) ∧
    addRectangleSelection maxSize en r1 c1 r2 c2
        = addRectangleSelection maxSize en r2 c2 r1 c1 := by
  have hnat := rectTotal_natAbs r1 c1 r2 c2
  have hcard := rawRectKeys_card r1 c1 r2 c2
  rcases addRect_cases maxSize en r1 c1 r2 c2 with ⟨_, hgt⟩ | ⟨heq, _⟩
  · exfalso
    omega
  · have hsel : (addRectangleSelection maxSize en r1 c1 r2 c2).2.selection
        = en.selection ∪ (rawRectKeys r1 c1 r2 c2).toFinset := by
      rw [heq]
    refine ⟨by rw [heq], hsel, ?_, ?_, addRect_corner_comm maxSize en r1 c1 r2 c2⟩
    · have hui := Finset.card_union_add_card_inter en.selection
        (rawRectKeys r1 c1 r2 c2).toFinset
      rw [hsel]
      omega
    · intro p hp
      rw [hsel] at hp
      rw [Finset.mem_sdiff, Finset.mem_union, List.mem_toFinset] at hp
      rcases hp with ⟨hin | hin, hout⟩
      · exact absurd hin hout
      · exact (mem_rawRectKeys r1 c1 r2 c2 p).mp hin

/-- Witness for C2: a 2x2 rectangle added to the empty selection under the
shipped ceiling of 2500. -/
theorem C2_addRectangle_witness :
    (Engine.init.selection.card + ((1 - 0 : ℤ).natAbs + 1) * ((1 - 0 : ℤ).natAbs + 1) ≤ 2500) ∧
    ((addRectangleSelection 2500 Engine.init 0 0 1 1).1 = true ∧
     (addRectangleSelection 2500 Engine.init 0 0 1 1).2.selection
        = Engine.init.selection ∪ (rawRectKeys 0 0 1 1).toFinset ∧
     (addRectangleSelection 2500 Engine.init 0 0 1 1).2.selection.card
        + (Engine.init.selection ∩ (rawRectKeys 0 0 1 1).toFinset).card
        = Engine.init.selection.card + ((1 - 0 : ℤ).natAbs + 1) * ((1 - 0 : ℤ).natAbs + 1) ∧
     (∀ p ∈ (addRectangleSelection 2500 Engine.init 0 0 1 1).2.selection \
          Engine.init.selection,
        min (0 : ℤ) 1 ≤ p.1 ∧ p.1 ≤ max (0 : ℤ) 1 ∧
          min (0 : ℤ) 1 ≤ p.2 ∧ p.2 ≤ max (0 : ℤ) 1) ∧
     addRectangleSelection 2500 Engine.init 0 0 1 1
        = addRectangleSelection 2500 Engine.init 1 1 0 0) :=
  ⟨by decide, C2_addRectangle_rectangle 2500 Engine.init 0 0 1 1 (by decide)⟩

set_option maxRecDepth 10000 in
/-- Claim C3 counterexample: with a ceiling of 100 and a selection that
already holds the full 10x10 rectangle (exactly 100 cells), re-adding the
already-selected single cell (0,0) fails even though the union would stay
at 100 ≤ 100 cells, because the guard counts the rectangle's cells without
subtracting the overlap. So "fails iff the union would exceed
maxSelectionSize" is false as stated. -/
theorem C3_counterexample :
    ¬ (((addRectangleSelection 100
          { Engine.init with selection := (rawRectKeys 0 0 9 9).toFinset } 0 0 0 0).1
            = false) ↔
        100 <
          (({ Engine.init with
              selection := (rawRectKeys 0 0 9 9).toFinset } : Engine).selection ∪
            (rawRectKeys 0 0 0 0).toFinset).card) := by decide

set_option maxRecDepth 10000 in
/-- Claim C3 (amended): `addRectangleSelection` fails (returning the JS
boolean `false`, not a count, and leaving the state unchanged) if and only
if the current selection size plus the full normalised rectangle size
exceeds `maxSelectionSize` — a conservative test that counts
already-selected rectangle cells again instead of testing the true union.
The 101-single-cell scenario at ceiling 100 still holds: after 101 adds
the selection has exactly 100 cells and the 101st add reports failure. -/
theorem C3_capacity_signal :
    (∀ (maxSize : ℕ) (en : Engine) (r1 c1 r2 c2 : ℤ),
      ((addRectangleSelection maxSize en r1 c1 r2 c2).1 = false ↔
        (maxSize : ℤ) < (en.selection.card : ℤ) + rectTotal r1 c1 r2 c2) ∧
      ((addRectangleSelection maxSize en r1 c1 r2 c2).1 = false →
        (addRectangleSelection maxSize en r1 c1 r2 c2).2 = en)) ∧
    (let s100 := ((List.range 100).map (fun i : ℕ => (i : ℤ))).foldl
        (fun e i => (addRectangleSelection 100 e i 0 i 0).2) Engine.init
     s100.selection.card = 100 ∧
     addRectangleSelection 100 s100 100 0 100 0 = (false, s100)) :=
  ⟨fun maxSize en r1 c1 r2 c2 => addRect_fail_iff maxSize en r1 c1 r2 c2, by decide⟩

/-- Witness for C3: with ceiling 0, adding a single cell to the empty
selection fails and leaves the state unchanged. -/
theorem C3_capacity_witness :
    ((addRectangleSelection 0 Engine.init 0 0 0 0).1 = false) ∧
    ((addRectangleSelection 0 Engine.init 0 0 0 0).2 = Engine.init) := by
  have h := C3_capacity_signal.1 0 Engine.init 0 0 0 0
  have hf : (addRectangleSelection 0 Engine.init 0 0 0 0).1 = false := h.1.mpr (by decide)
  exact ⟨hf, h.2 hf⟩

/-- Claim C4 counterexample: the singleton rectangular selection
(0,0)-(0,0) whose cell text contains a tab does not round-trip: the
formatter emits `a<TAB>b`, which parses back as two cells, not as the one
cell the direct lookup produces. -/
theorem C4_counterexample :
    (([((0 : ℤ), (0 : ℤ))] : List Coord) = rawRectKeys 0 0 0 0) ∧
    ¬ ((splitOnChar '\n' (copySelectionTSV (fun _ _ => ("a\tb".data)) (fun _ => false)
          (some true) [((0 : ℤ), (0 : ℤ))])).map (splitOnChar '\t')
        = [[("a\tb".data)]]) := by
  constructor
  · decide
  · decide

/-- Claim C4 (amended): for any selection enumerating a rectangle in any
order (no header rows filtered, i.e. headers included), the TSV export
groups coordinates by row, emits rows sorted ascending with columns
sorted ascending inside each row joined by tabs, rows joined by newlines;
and splitting the output by newline and tab recovers exactly the
per-coordinate lookup grouping, provided no involved cell text contains a
tab or newline character (the delimiters). -/
theorem C4_tsv_roundtrip (text : ℤ → ℤ → Str) (isHeader : ℤ → Bool)
    (sel : List Coord) (r1 c1 r2 c2 : ℤ)
    (hperm : sel.Perm (rawRectKeys r1 c1 r2 c2))
    (htext : ∀ r c, min r1 r2 ≤ r → r ≤ max r1 r2 → min c1 c2 ≤ c → c ≤ max c1 c2 →
      '\t' ∉ text r c ∧ '\n' ∉ text r c) :
    (splitOnChar '\n' (copySelectionTSV text isHeader (some true) sel)).map (splitOnChar '\t')
      = (rangeInt (min r1 r2) (max r1 r2)).map
          (fun r => (rangeInt (min c1 c2) (max c1 c2)).map (fun c => text r c)) := by
  unfold copySelectionTSV formatAsTSV
  rw [rowIndicesOf_rect sel r1 c1 r2 c2 hperm]
  dsimp only
  have hfilter : (rangeInt (min r1 r2) (max r1 r2)).filter (fun r => true || !isHeader r)
      = rangeInt (min r1 r2) (max r1 r2) := by simp
  rw [hfilter]
  have hrowline : ∀ r ∈ rangeInt (min r1 r2) (max r1 r2),
      joinSep '\t' ((sortInts (rowsMapOf sel r)).map (fun c => text r c))
        = joinSep '\t' ((rangeInt (min c1 c2) (max c1 c2)).map (fun c => text r c)) := by
    intro r hr
    rw [mem_rangeInt] at hr
    rw [sorted_cols_rect sel r1 c1 r2 c2 hperm r hr.1 hr.2]
  rw [List.map_congr_left hrowline]
  have houter : splitOnChar '\n'
      (joinSep '\n' ((rangeInt (min r1 r2) (max r1 r2)).map
        (fun r => joinSep '\t' ((rangeInt (min c1 c2) (max c1 c2)).map (fun c => text r c)))))
      = (rangeInt (min r1 r2) (max r1 r2)).map
          (fun r => joinSep '\t' ((rangeInt (min c1 c2) (max c1 c2)).map (fun c => text r c))) := by
    apply splitOnChar_joinSep
    · intro hnil
      rw [List.map_eq_nil_iff] at hnil
      exact rangeInt_ne_nil _ _ min_le_max hnil
    · intro p hp
      obtain ⟨r, hr, rfl⟩ := List.mem_map.mp hp
      rw [mem_rangeInt] at hr
      intro hmem
      rcases mem_joinSep _ _ _ hmem with heq | ⟨q, hq, hcq⟩
      · exact absurd heq (by decide)
      · obtain ⟨c, hc, rfl⟩ := List.mem_map.mp hq
        rw [mem_rangeInt] at hc
        exact (htext r c hr.1 hr.2 hc.1 hc.2).2 hcq
  rw [houter, List.map_map]
  apply List.map_congr_left
  intro r hr
  rw [mem_rangeInt] at hr
  show splitOnChar '\t'
      (joinSep '\t' ((rangeInt (min c1 c2) (max c1 c2)).map (fun c => text r c)))
    = (rangeInt (min c1 c2) (max c1 c2)).map (fun c => text r c)
  apply splitOnChar_joinSep
  · intro hnil
    rw [List.map_eq_nil_iff] at hnil
    exact rangeInt_ne_nil _ _ min_le_max hnil
  · intro q hq
    obtain ⟨c, hc, rfl⟩ := List.mem_map.mp hq
    rw [mem_rangeInt] at hc
    exact (htext r c hr.1 hr.2 hc.1 hc.2).1

/-- Witness for C4: the 2x2 rectangle (0,0)-(1,1) with constant
delimiter-free cell text round-trips. -/
theorem C4_roundtrip_witness :
    ((rawRectKeys 0 0 1 1).Perm (rawRectKeys 0 0 1 1)) ∧
    (∀ r c : ℤ, min (0 : ℤ) 1 ≤ r → r ≤ max (0 : ℤ) 1 → min (0 : ℤ) 1 ≤ c →
        c ≤ max (0 : ℤ) 1 → '\t' ∉ (['x'] : Str) ∧ '\n' ∉ (['x'] : Str)) ∧
    ((splitOnChar '\n' (copySelectionTSV (fun _ _ => (['x'] : Str)) (fun _ => false)
          (some true) (rawRectKeys 0 0 1 1))).map (splitOnChar '\t')
        = (rangeInt (min (0 : ℤ) 1) (max (0 : ℤ) 1)).map
            (fun _ => (rangeInt (min (0 : ℤ) 1) (max (0 : ℤ) 1)).map
              (fun _ => (['x'] : Str)))) :=
  ⟨List.Perm.refl _, fun r c _ _ _ _ => by decide,
   C4_tsv_roundtrip (fun _ _ => ['x']) (fun _ => false) (rawRectKeys 0 0 1 1) 0 0 1 1
     (List.Perm.refl _)
     (fun r c _ _ _ _ =>
       show '\t' ∉ (['x'] : Str) ∧ '\n' ∉ (['x'] : Str) from by decide)⟩

/-- Claim C5 counterexample: the current (v2.0.0) classifier has no date
category at all; `classify("2024-01-15")` is `"text"`, not `"date"`. -/
theorem C5_counterexample :
    detectContentType ("2024-01-15".data) ≠ ContentType.date := by decide

/-- Claim C5 (amended): the current classifier maps `$1,234.50` to
currency, `42%` to percentage and `plain text` to text, and
`parseNumeric("$1,234.50")` is exactly 1234.50; but `2024-01-15`
classifies as text in the current classifier (whose taxonomy has no date
class) — only the older v1.1.0 classifier returns date for it. -/
theorem C5_classifier_values :
    detectContentType ("$1,234.50".data) = ContentType.currency ∧
    detectContentType ("42%".data) = ContentType.percentage ∧
    detectContentType ("plain text".data) = ContentType.text ∧
    detectContentType ("2024-01-15".data) = ContentType.text ∧
    detectContentTypeV110 ("2024-01-15".data) = ContentType.date ∧
    parseNumericValue ("$1,234.50".data) = some ((2469 : ℚ) / 2) := by
  refine ⟨by decide, by decide, by decide, by decide, by decide, ?_⟩
  have h : parseNumericValue ("$1,234.50".data)
      = some ((1 : ℚ) * (((1234 : ℕ) : ℚ) + ((50 : ℕ) : ℚ) / (10 : ℚ) ^ (2 : ℕ))
          * ((10 : ℚ) ^ (0 : ℕ))) := rfl
  rw [h]
  norm_num

/-- Claim C6 counterexample: a 502-cell selection spanning 502 distinct
rows. The stats loop breaks after visiting 501 keys, so the reported
distinct-row count is 501, not the true 502 — the cardinalities are not
exact beyond the cap. -/
theorem C6_counterexample :
    (calculateStats (fun _ _ => ("x".data))
        ((List.range 502).map (fun i : ℕ => ((i : ℤ), (0 : ℤ))))).rows
      ≠ (((((List.range 502).map (fun i : ℕ => ((i : ℤ), (0 : ℤ)))).map
            (fun p => p.1)).dedup).length) := by
  have hinj : Function.Injective (fun i : ℕ => (i : ℤ)) := by
    intro i j hij
    dsimp only at hij
    exact_mod_cast hij
  have hrows : ∀ n : ℕ,
      ((((List.range n).map (fun i : ℕ => ((i : ℤ), (0 : ℤ)))).map (fun p => p.1)).dedup).length
        = n := by
    intro n
    rw [List.map_map]
    have : ((fun p : Coord => p.1) ∘ fun i : ℕ => ((i : ℤ), (0 : ℤ)))
        = fun i : ℕ => (i : ℤ) := rfl
    rw [this]
    rw [List.Nodup.dedup (List.Nodup.map hinj (List.nodup_range n))]
    rw [List.length_map, List.length_range]
  have htake : ((List.range 502).map (fun i : ℕ => ((i : ℤ), (0 : ℤ)))).take 501
      = (List.range 501).map (fun i : ℕ => ((i : ℤ), (0 : ℤ))) := by
    rw [← List.map_take, List.take_range]
    norm_num
  have hLHS : (calculateStats (fun _ _ => ("x".data))
      ((List.range 502).map (fun i : ℕ => ((i : ℤ), (0 : ℤ))))).rows = 501 := by
    unfold calculateStats
    dsimp only
    rw [htake, hrows 501]
  rw [hLHS, hrows 502]
  omega

/-- Claim C6 (amended): the stats cell count is always the exact
cardinality of the whole selection, but the distinct row/column counts are
computed from only the first 501 visited keys, so they are exact whenever
the selection has at most 501 cells (and can undercount beyond that). -/
theorem C6_stats_cardinalities (text : ℤ → ℤ → Str) (sel : List Coord) :
    (calculateStats text sel).cells = sel.length ∧
    (sel.length ≤ 501 →
      (calculateStats text sel).rows = ((sel.map (fun p => p.1)).dedup).length ∧
      (calculateStats text sel).cols = ((sel.map (fun p => p.2)).dedup).length) := by
  refine ⟨rfl, fun h => ?_⟩
  have ht : sel.take 501 = sel := List.take_of_length_le h
  unfold calculateStats
  rw [ht]
  exact ⟨rfl, rfl⟩

/-- Witness for C6: a two-cell selection in one row and two columns. -/
theorem C6_stats_witness :
    (([((3 : ℤ), (4 : ℤ)), ((3 : ℤ), (5 : ℤ))] : List Coord).length ≤ 501) ∧
    (calculateStats (fun _ _ => ("7".data)) [((3 : ℤ), (4 : ℤ)), ((3 : ℤ), (5 : ℤ))]).cells
        = ([((3 : ℤ), (4 : ℤ)), ((3 : ℤ), (5 : ℤ))] : List Coord).length ∧
    (calculateStats (fun _ _ => ("7".data)) [((3 : ℤ), (4 : ℤ)), ((3 : ℤ), (5 : ℤ))]).rows
        = ((([((3 : ℤ), (4 : ℤ)), ((3 : ℤ), (5 : ℤ))] : List Coord).map
            (fun p => p.1)).dedup).length ∧
    (calculateStats (fun _ _ => ("7".data)) [((3 : ℤ), (4 : ℤ)), ((3 : ℤ), (5 : ℤ))]).cols
        = ((([((3 : ℤ), (4 : ℤ)), ((3 : ℤ), (5 : ℤ))] : List Coord).map
            (fun p => p.2)).dedup).length :=
  ⟨by decide,
   (C6_stats_cardinalities (fun _ _ => ("7".data)) _).1,
   ((C6_stats_cardinalities (fun _ _ => ("7".data)) _).2 (by decide)).1,
   ((C6_stats_cardinalities (fun _ _ => ("7".data)) _).2 (by decide)).2⟩

/-- Claim C7 counterexample: on a 1x1 grid the adapter's getCell at the
negative coordinate (-1,-1) returns the cell rather than an absent result,
because jQuery's `.eq` resolves negative indices from the end and the
code's bounds checks only guard `r >= rows.length` / `c >= cells.length`. -/
theorem C7_counterexample :
    getCellDefault [[(0 : ℕ)]] (-1) (-1) = some 0 := by decide

/-- Claim C7 (amended): for nonnegative row/column indices the default
adapter's getCell equals the bounds-checked list lookup — it returns
absent for any index at or past the row/cell count and never throws (the
embedding is total); negative indices, however, are resolved from the end
of the collection rather than reported absent. -/
theorem C7_getCell_bounds (α : Type) (rows : List (List α)) (r c : ℤ)
    (hr : 0 ≤ r) (hc : 0 ≤ c) :
    getCellDefault rows r c = (rows.get? r.toNat).bind (fun row => row.get? c.toNat) := by
  unfold getCellDefault jqEq
  simp only [List.get?_eq_getElem?]
  by_cases h1 : (rows.length : ℤ) ≤ r
  · have hnone : rows[r.toNat]? = none := List.getElem?_eq_none (by omega)
    simp [h1, hnone]
  · push_neg at h1
    have hlt : r.toNat < rows.length := by omega
    have hget : rows[r.toNat]? = some rows[r.toNat] := List.getElem?_eq_getElem hlt
    rw [if_neg (not_le.mpr h1), if_pos hr]
    simp only [hget, Option.getD_some, Option.bind_some]
    by_cases h2 : (rows[r.toNat].length : ℤ) ≤ c
    · have hn2 : rows[r.toNat][c.toNat]? = none := List.getElem?_eq_none (by omega)
      simp [h2, hn2]
    · push_neg at h2
      rw [if_neg (not_le.mpr h2), if_pos hc]
      simp

/-- Witness for C7: row index 1 on a one-row grid is out of bounds and
resolves to an absent cell. -/
theorem C7_getCell_witness :
    (0 : ℤ) ≤ 1 ∧ (0 : ℤ) ≤ 0 ∧
    getCellDefault [[(5 : ℕ)]] 1 0
      = (([[(5 : ℕ)]].get? (1 : ℤ).toNat).bind (fun row => row.get? (0 : ℤ).toNat)) :=
  ⟨by decide, by decide, C7_getCell_bounds ℕ [[5]] 1 0 (by decide) (by decide)⟩

/-- Claim C8: two successive `updateDrag` calls resolving to the same
coordinate — whatever the first call did, a second call at the same
resolved coordinate returns the state unchanged and schedules no repaint
(the Bool component, which reports whether `UI.batchPaint` was invoked,
is false). -/
theorem C8_updateDrag_noop (maxSize : ℕ) (en : Engine) (r c : ℤ) (e1 e2 : Bool) :
    updateDragE maxSize (updateDragE maxSize en r c e1).1 r c e2
      = ((updateDragE maxSize en r c e1).1, false) := by
  have h : (updateDragE maxSize en r c e1).1.currentRow = r ∧
      (updateDragE maxSize en r c e1).1.currentCol = c := by
    unfold updateDragE
    split
    · next hc => exact ⟨hc.1.symm, hc.2.symm⟩
    · dsimp only
      constructor
      · rw [(addRect_keeps_current _ _ _ _ _ _).1]
        split <;> rfl
      · rw [(addRect_keeps_current _ _ _ _ _ _).2]
        split <;> rfl
  set s1 := (updateDragE maxSize en r c e1).1 with hs1
  unfold updateDragE
  rw [if_pos ⟨h.1.symm, h.2.symm⟩]

/-- Claim C9 counterexample: after six faults the mouse layer is disabled,
yet the next keyboard event (a primary-modifier keydown) is still handled
and flips the selecting-mode body class — a DOM change — contradicting
"no subsequent input event (mouse or keyboard) is handled". -/
theorem C9_counterexample :
    (let s6 := (List.replicate 6 (Ev.errorEv ErrKind.generic)).foldl
        (stepEv [] 2500) SysState.init
     s6.enabled = false ∧ s6.mouseAttached = false ∧
     s6.engine.selectingMode = false ∧
     (stepEv [] 2500 s6
        (Ev.keydown KeyT.other ⟨0, true, false, false⟩)).engine.selectingMode = true) := by
  decide

/-- Claim C9 (amended): once the fault ceiling trips, the mouse input
layer is fully disabled — with the listeners detached, every mouse event
leaves the state unchanged, and no event re-enables the layer — but the
window-level keyboard listeners remain attached and unguarded: an Escape
keydown still clears the Selection (and a primary-modifier keydown still
toggles the selecting-mode DOM class, per the counterexample). -/
theorem C9_disable_behaviour :
    (∀ (grid : List (List Bool)) (maxSize : ℕ) (s : SysState) (ev : Ev),
      s.mouseAttached = false → isMouseEv ev = true → stepEv grid maxSize s ev = s) ∧
    (∀ (grid : List (List Bool)) (maxSize : ℕ) (s : SysState) (ev : Ev),
      s.enabled = false → s.mouseAttached = false →
        (stepEv grid maxSize s ev).enabled = false ∧
          (stepEv grid maxSize s ev).mouseAttached = false) ∧
    (∀ (grid : List (List Bool)) (maxSize : ℕ) (s : SysState) (e : PageEv),
      (stepEv grid maxSize s (Ev.keydown KeyT.escape e)).engine.selection = ∅) := by
  refine ⟨?_, ?_, ?_⟩
  · intro grid maxSize s ev hma hm
    cases ev <;> simp_all [stepEv, isMouseEv]
  · intro grid maxSize s ev hen hma
    cases ev with
    | errorEv k =>
      simp only [stepEv, handleErrorS]
      split
      · exact ⟨rfl, rfl⟩
      · cases k <;> exact ⟨hen, hma⟩
    | mousedown e cell => simp [stepEv, hma, hen]
    | mousemove e cell => simp [stepEv, hma, hen]
    | mouseup e => simp [stepEv, hma, hen]
    | dblclick e cellCol => simp [stepEv, hma, hen]
    | keydown k e =>
      cases k with
      | escape => exact ⟨hen, hma⟩
      | other =>
        simp only [stepEv, handleKeyDownS]
        split
        · exact ⟨hen, hma⟩
        · exact ⟨hen, hma⟩
    | keyup e =>
      simp only [stepEv, handleKeyUpS]
      split
      · exact ⟨hen, hma⟩
      · exact ⟨hen, hma⟩
  · intro grid maxSize s e
    rfl

/-- Witness for C9: a disabled state absorbs a mouseup event. -/
theorem C9_disable_witness :
    (({ SysState.init with enabled := false, mouseAttached := false } : SysState).mouseAttached
        = false) ∧
    isMouseEv (Ev.mouseup ⟨0, true, false, false⟩) = true ∧
    stepEv [] 2500 { SysState.init with enabled := false, mouseAttached := false }
        (Ev.mouseup ⟨0, true, false, false⟩)
      = { SysState.init with enabled := false, mouseAttached := false } :=
  ⟨rfl, rfl, C9_disable_behaviour.1 [] 2500 _ _ rfl rfl⟩

/-- Claim C10: `getCellText` memoizes by node identity — whatever the
cache held, after one call for a node every later call for the same node
returns the first call's string, even if the node's title attribute or
text content changed in between. -/
theorem C10_getCellText_memoized (cache : ℕ → Option Str) (id : ℕ)
    (cell1 cell2 : CellNode) :
    (getCellTextCached (getCellTextCached cache id cell1).2 id cell2).1
      = (getCellTextCached cache id cell1).1 := by
  unfold getCellTextCached
  cases h : cache id <;> simp [h]
